import Mathlib

/-!
Verification of the asynchronous log-dispatch subsystem of the
`yealink_actionurl` repository (`src/log.go`): the Loki push client
(`PushLog`), the template registry (`AddTemplate` / `formatTemplate`),
the record builder (`BuildLog`), the JSON serialization wrapper
(`String`), the dispatcher worker loop (`processLogChannel`), and the
shutdown protocol (`SendLog` / `CloseLogManager`).

External collaborators — the HTTP transport, `encoding/json.Marshal`
and `fmt.Sprintf` from the Go standard library — are modelled as
explicit function parameters, so every theorem quantifies over their
behaviour.  Go maps are modelled as functions `String → Option _`
(pointwise update on insert, exactly the observable behaviour of a Go
map write).  Go `time.Time` is modelled by the only observation the
code makes of it: `UnixNano`, an integer.
-/

namespace YealinkLog

/-- Model of Go `time.Time`, restricted to the single observation the
dispatch subsystem makes of it: `UnixNano()`, the instant as Unix
nanoseconds (`int64`, modelled as `Int`). -/
structure GoTime where
  unixNano : Int
deriving DecidableEq

/-- Model of Go `interface{}` values as they occur in the additional
fields map and in positional format arguments. -/
inductive GoValue where
  | str (s : String)
  | int (i : Int)
  | boolean (b : Bool)
deriving DecidableEq

/-- Model of the Go struct `LoggingFormat` (src/log.go).  The Go field
`Type` is rendered `logtype` because `Type` is reserved in Lean; the
Go field `Error` (an `error` interface value, `nil` by default) is
modelled as an optional message string; `Level` (`logrus.Level`, a
`uint32`) is modelled as `Nat`; `AdditionalData`
(`map[string]interface{}`) as an association list. -/
structure LoggingFormat where
  Message : String
  Error : Option String
  logtype : String
  Level : Nat
  AdditionalData : List (String × GoValue)
  Timestamp : GoTime
deriving DecidableEq

/-- Model of the Go struct `LogEntry` (src/log.go): a timestamp and the
serialized log line destined for Loki. -/
structure LogEntry where
  Timestamp : GoTime
  Line : String
deriving DecidableEq

/-- Model of the Go struct `LokiStream` (src/log.go): a label map and a
list of `[timestamp, line]` string pairs (`[][2]string` in Go). -/
structure LokiStream where
  stream : List (String × String)
  values : List (String × String)
deriving DecidableEq

/-- Model of the Go struct `LokiPushData` (src/log.go): the body of a
Loki push request, a list of streams. -/
structure LokiPushData where
  streams : List LokiStream
deriving DecidableEq

/-- Model of the Go struct `LokiClient` (src/log.go). -/
structure LokiClient where
  PushURL : String
  Username : String
  Password : String
  Job : String
  Enabled : Bool
deriving DecidableEq

/-- The observable content of the HTTP POST that `PushLog` issues: the
target URL, the payload (before JSON encoding — the encoding of a
struct of strings cannot fail and is injective, so we keep the
structured form), the content type header, and the basic-auth
credentials, present exactly when both username and password are
non-empty. -/
structure HttpRequest where
  url : String
  payload : LokiPushData
  contentType : String
  basicAuth : Option (String × String)
deriving DecidableEq

/-- The HTTP transport (`http.Client.Do`), modelled as a function from
the request to either a transport-level error message or a response
status code. -/
def Network : Type := HttpRequest → Except String Nat

/-- The request `PushLog` builds when the client is enabled and has a
push URL (src/log.go, the body of `PushLog` after the no-op guard):
a single stream whose labels are the given label map and whose single
value pair is the decimal `UnixNano` timestamp and the line; content
type `application/json`; basic auth iff both credentials are set. -/
def mkLokiRequest (c : LokiClient) (labels : List (String × String))
    (entry : LogEntry) : HttpRequest :=
  { url := c.PushURL
    payload := { streams := [{ stream := labels
                               values := [(toString entry.Timestamp.unixNano, entry.Line)] }] }
    contentType := "application/json"
    basicAuth := if c.Username ≠ "" ∧ c.Password ≠ "" then some (c.Username, c.Password)
                 else none }

/-- Model of `(*LokiClient).PushLog` (src/log.go).  The receiver may be
`nil` (`none`).  Returns the request issued over the network (if any)
together with the Go return value (`nil` error = `Except.ok ()`).
`json.Marshal` of `LokiPushData` (strings only) cannot fail and
`http.NewRequest` with the constant method `"POST"` fails only on an
unparsable URL; both are modelled as total, matching the spec which
does not mention those paths.  Success statuses are 204
(`http.StatusNoContent`) and 200 (`http.StatusOK`); any other status
or a transport failure yields a context-wrapped error. -/
def pushLog (c : Option LokiClient) (net : Network)
    (labels : List (String × String)) (entry : LogEntry) :
    Option HttpRequest × Except String Unit :=
  match c with
  | none => (none, Except.ok ())
  | some cc =>
    if cc.Enabled = false ∨ cc.PushURL = "" then (none, Except.ok ())
    else
      let req := mkLokiRequest cc labels entry
      match net req with
      | Except.error e => (some req, Except.error ("failed to send request to Loki: " ++ e))
      | Except.ok status =>
        if status ≠ 204 ∧ status ≠ 200 then
          (some req, Except.error ("unexpected response from Loki: " ++ toString status))
        else (some req, Except.ok ())

/-- The Go expression `c == nil || !c.Enabled || c.PushURL == ""`: the
sink configurations `PushLog` treats as a no-op. -/
def sinkDisabled (c : Option LokiClient) : Prop :=
  c = none ∨ ∃ cc, c = some cc ∧ (cc.Enabled = false ∨ cc.PushURL = "")

/-- `encoding/json.Marshal` applied to a `LoggingFormat`, modelled as
an arbitrary fallible serializer supplied as a parameter (it can fail
in Go when `AdditionalData` holds an unmarshalable value). -/
def Marshal : Type := LoggingFormat → Except String String

/-- Model of `(*LoggingFormat).String` (src/log.go): the JSON
serialization of the record, or — when marshalling fails — the
human-readable placeholder `fmt.Sprintf("Error serializing log: %v", err)`
(the `%v` verb on an error renders its message). -/
def lfString (marshal : Marshal) (lf : LoggingFormat) : String :=
  match marshal lf with
  | Except.error e => "Error serializing log: " ++ e
  | Except.ok s => s

/-- The label map `processLogChannel` builds for a record
(src/log.go): `{"job": lm.LokiClient.Job, "type": log.Type}`. -/
def workerLabels (c : LokiClient) (lg : LoggingFormat) : List (String × String) :=
  [("job", c.Job), ("type", lg.logtype)]

/-- The `LogEntry` `processLogChannel` builds for a record
(src/log.go): the record's timestamp and its serialized line. -/
def workerEntry (marshal : Marshal) (lg : LoggingFormat) : LogEntry :=
  { Timestamp := lg.Timestamp, Line := lfString marshal lg }

/-- One iteration of the worker loop in `processLogChannel`
(src/log.go) on a received record: skip everything if no Loki client
is configured; otherwise build labels and entry and call `PushLog`;
on a push error, emit the local logrus error (message paired with the
wrapped error) only if the client is enabled.  Returns the request
issued (if any) and the list of local error emissions. -/
def processOne (client : Option LokiClient) (net : Network) (marshal : Marshal)
    (lg : LoggingFormat) : Option HttpRequest × List (String × String) :=
  match client with
  | none => (none, [])
  | some c =>
    match pushLog (some c) net (workerLabels c lg) (workerEntry marshal lg) with
    | (req, Except.error e) =>
      (req, if c.Enabled then [("Failed to send log to Loki", e)] else [])
    | (req, Except.ok _) => (req, [])

/-- The worker loop of `processLogChannel` (src/log.go) over the
sequence of records it receives from the channel, in acceptance
order: each record is handled by `processOne` and the loop continues
unconditionally (a push failure never breaks out of the `range`). -/
def processLoop (client : Option LokiClient) (net : Network) (marshal : Marshal) :
    List LoggingFormat → List (LoggingFormat × Option HttpRequest × List (String × String))
  | [] => []
  | lg :: rest => (lg, processOne client net marshal lg) :: processLoop client net marshal rest

/-- Model of Go `strings.ToUpper` on the ASCII template names the code
uses: upper-case every character.  Defined by mapping `Char.toUpper`
over the character list (extensionally the same as `String.toUpper`,
but this form reduces definitionally, so theorems can be evaluated on
literals). -/
def goToUpper (s : String) : String := ⟨s.data.map Char.toUpper⟩

/-- The Go map `LogManager.Templates`, modelled as a function from key
to optional stored format string. -/
def TemplateMap : Type := String → Option String

/-- Model of `(*LogManager).AddTemplate` (src/log.go): a Go map write
`lm.Templates[strings.ToUpper(name)] = template`, which silently
overwrites any existing entry at that key. -/
def AddTemplate (m : TemplateMap) (name template : String) : TemplateMap :=
  fun k => if k = goToUpper name then some template else m k

/-- `fmt.Sprintf`, modelled as an arbitrary positional-argument
formatter supplied as a parameter: format string and argument list to
formatted output. -/
def Sprintf : Type := String → List GoValue → String

/-- Model of `(*LogManager).formatTemplate` (src/log.go): look up the
upper-cased template name; if absent, format the literal name itself
with the arguments; if present, format the stored template. -/
def formatTemplate (m : TemplateMap) (sprintf : Sprintf) (templateName : String)
    (args : List GoValue) : String :=
  match m (goToUpper templateName) with
  | none => sprintf templateName args
  | some t => sprintf t args

/-- Model of `(*LogManager).BuildLog` (src/log.go).  `time.Now()` is
modelled by the explicit parameter `now`. -/
def BuildLog (m : TemplateMap) (sprintf : Sprintf) (logType templateName : String)
    (level : Nat) (fields : List (String × GoValue)) (args : List GoValue)
    (now : GoTime) : LoggingFormat :=
  { Message := formatTemplate m sprintf templateName args
    Error := none
    logtype := goToUpper logType
    Level := level
    AdditionalData := fields
    Timestamp := now }

/-- Observable events of the dispatcher model: a producer's local
console emission (`log.Print()` inside `SendLog`), the rendezvous
hand-off of a producer's record to the worker (the unbuffered channel
send in `SendLog` completing simultaneously with the worker's
receive), the worker finishing one record, `close(lm.LogChannel)`
inside `CloseLogManager`, the worker's `range` loop exiting (running
the deferred `wg.Done()`), and `lm.wg.Wait()` returning, i.e.
`CloseLogManager` returning to its caller.  Producers are identified
by index. -/
inductive Ev where
  | print (pid : Nat)
  | accept (pid : Nat)
  | process (pid : Nat)
  | chanClosed
  | workerExit
  | shutdownRet
deriving DecidableEq

/-- State of the dispatcher model (`LogManager` with its unbuffered
`LogChannel`, worker goroutine and `sync.WaitGroup`): `nprod`
producers each calling `SendLog` once; `phases i` is producer `i`'s
progress (0 = not started, 1 = `Print` done and blocked on the
channel send, 2 = hand-off accepted, `SendLog` returned); `busy` is
the record the worker is currently handling (the unbuffered channel
holds nothing, so at most one record is in flight); `procd` the
records the worker has finished, in order; `closed` whether
`close(lm.LogChannel)` has run; `workerDone` whether the worker's
deferred `wg.Done()` has run; `retd` whether `wg.Wait()` has
returned. -/
structure Sys where
  nprod : Nat
  phases : Nat → Nat
  busy : Option Nat
  procd : List Nat
  closed : Bool
  workerDone : Bool
  retd : Bool

/-- Initial dispatcher state for `k` producers: nothing printed,
nothing in flight, nothing processed, channel open. -/
def initSys (k : Nat) : Sys :=
  { nprod := k
    phases := fun _ => 0
    busy := none
    procd := []
    closed := false
    workerDone := false
    retd := false }

/-- Small-step transition relation of the dispatcher model.
`print`: producer `i` runs `log.Print()` — the first statement of
`SendLog`.  `accept`: the unbuffered send `lm.LogChannel <- log`
completes, which requires the worker to be at its receive (`busy =
none`) and the channel open; it simultaneously unblocks producer `i`
(`SendLog` returns, phase 2) and hands the record to the worker.
`process`: the worker finishes the body of its loop for the record in
flight.  `close`: `CloseLogManager` runs `close(lm.LogChannel)` —
per the claim's hypothesis, only after every producer's `SendLog` has
returned and with no later enqueues.  `workerExit`: with the channel
closed and drained the `range` loop ends and the deferred
`wg.Done()` runs.  `shutdownRet`: `lm.wg.Wait()` returns. -/
inductive Step : Sys → Ev → Sys → Prop where
  | print (s : Sys) (i : Nat) :
      i < s.nprod → s.phases i = 0 →
      Step s (Ev.print i) { s with phases := fun j => if j = i then 1 else s.phases j }
  | accept (s : Sys) (i : Nat) :
      i < s.nprod → s.phases i = 1 → s.busy = none → s.closed = false →
      Step s (Ev.accept i)
        { s with phases := fun j => if j = i then 2 else s.phases j
                 busy := some i }
  | process (s : Sys) (i : Nat) :
      s.busy = some i →
      Step s (Ev.process i) { s with busy := none, procd := s.procd ++ [i] }
  | close (s : Sys) :
      (∀ j, j < s.nprod → s.phases j = 2) → s.closed = false →
      Step s Ev.chanClosed { s with closed := true }
  | workerExit (s : Sys) :
      s.closed = true → s.busy = none →
      Step s Ev.workerExit { s with workerDone := true }
  | shutdownRet (s : Sys) :
      s.workerDone = true →
      Step s Ev.shutdownRet { s with retd := true }

/-- Finite executions of the dispatcher model, with their traces. -/
inductive Steps : Sys → List Ev → Sys → Prop where
  | nil (s : Sys) : Steps s [] s
  | cons (s m t : Sys) (e : Ev) (tr : List Ev) :
      Step s e m → Steps m tr t → Steps s (e :: tr) t

/-- Invariant of the dispatcher model: processed records are distinct,
the in-flight record is not yet processed, a producer has returned
from `SendLog` (phase 2) exactly when its record is processed or in
flight, all tracked records are real producers, the channel is closed
only after every producer returned, the worker exits only with the
channel closed and drained, and shutdown returns only after the
worker exited. -/
def SysInv (s : Sys) : Prop :=
  s.procd.Nodup
  ∧ (∀ i, s.busy = some i → i ∉ s.procd)
  ∧ (∀ i, i < s.nprod → (s.phases i = 2 ↔ (i ∈ s.procd ∨ s.busy = some i)))
  ∧ (∀ i, i ∈ s.procd → i < s.nprod)
  ∧ (∀ i, s.busy = some i → i < s.nprod)
  ∧ (s.closed = true → ∀ i, i < s.nprod → s.phases i = 2)
  ∧ (s.workerDone = true → s.closed = true ∧ s.busy = none)
  ∧ (s.retd = true → s.workerDone = true)

/-- Concrete enabled Loki client, used to evaluate theorems. -/
def cliOn : LokiClient :=
  { PushURL := "http://loki.local/loki/api/v1/push"
    Username := "user", Password := "pass", Job := "yealink", Enabled := true }

/-- Concrete disabled Loki client. -/
def cliOff : LokiClient :=
  { PushURL := "http://loki.local/loki/api/v1/push"
    Username := "", Password := "", Job := "yealink", Enabled := false }

/-- A transport that always answers HTTP 200. -/
def netOk : Network := fun _ => Except.ok 200

/-- A transport that always fails at the connection level. -/
def netDown : Network := fun _ => Except.error "connection refused"

/-- A serializer that always succeeds (returning the record's message). -/
def marshalOk : Marshal := fun lf => Except.ok lf.Message

/-- A serializer that always fails, as `json.Marshal` does on an
unmarshalable `AdditionalData` value. -/
def marshalFail : Marshal := fun _ => Except.error "unsupported type"

/-- A concrete log entry. -/
def entry0 : LogEntry := { Timestamp := { unixNano := 5 }, Line := "line" }

/-- A concrete log record. -/
def lg0 : LoggingFormat :=
  { Message := "m", Error := none, logtype := "EVENT", Level := 2
    AdditionalData := [], Timestamp := { unixNano := 5 } }

/-- An empty template registry. -/
def emptyTemplates : TemplateMap := fun _ => none

/-- A concrete positional formatter: appends the argument count. -/
def sprintfArity : Sprintf := fun s l => s ++ "#" ++ toString l.length

/-- A complete one-producer execution of the dispatcher model: print,
hand-off, process, close, worker exit, shutdown return. -/
def drainTrace : List Ev :=
  [Ev.print 0, Ev.accept 0, Ev.process 0, Ev.chanClosed, Ev.workerExit, Ev.shutdownRet]

/-- The state reached by `drainTrace` from `initSys 1`. -/
def drainFinal : Sys :=
  { nprod := 1
    phases := fun j => if j = 0 then 2 else if j = 0 then 1 else 0
    busy := none
    procd := [0]
    closed := true
    workerDone := true
    retd := true }

theorem initSys_inv (k : Nat) : SysInv (initSys k) := by
  unfold SysInv initSys
  refine ⟨List.nodup_nil, ?_, ?_, ?_, ?_, ?_, ?_, ?_⟩ <;> simp

theorem step_nprod {s : Sys} {e : Ev} {t : Sys} (h : Step s e t) : t.nprod = s.nprod := by
  cases h <;> rfl

theorem steps_nprod {s : Sys} {tr : List Ev} {t : Sys} (h : Steps s tr t) :
    t.nprod = s.nprod := by
  induction h with
  | nil s => rfl
  | cons s m t e tr hst hsteps ih => rw [ih, step_nprod hst]

theorem step_inv {s : Sys} {e : Ev} {t : Sys} (h : Step s e t) (hs : SysInv s) :
    SysInv t := by
  obtain ⟨hnd, hbp, hiff, hpb, hbb, hcl, hwd, hrd⟩ := hs
  cases h with
  | print i hi h0 =>
    refine ⟨hnd, hbp, ?_, hpb, hbb, ?_, hwd, hrd⟩
    · intro j hj
      by_cases hji : j = i
      · subst hji
        constructor
        · intro h2
          simp at h2
        · intro hmem
          have h2 := (hiff j hj).mpr hmem
          omega
      · have hold := hiff j hj
        simpa [hji] using hold
    · intro hc
      have h2 := hcl hc i hi
      omega
  | accept i hi h1 hb hc =>
    have hni : ¬(i ∈ s.procd ∨ s.busy = some i) := by
      intro hmem
      have h2 := (hiff i hi).mpr hmem
      omega
    refine ⟨hnd, ?_, ?_, hpb, ?_, ?_, ?_, hrd⟩
    · intro j hj
      simp only at hj
      injection hj with hj'
      subst hj'
      intro hmem
      exact hni (Or.inl hmem)
    · intro j hj
      by_cases hji : j = i
      · subst hji
        simp
      · have hold := hiff j hj
        rw [hb] at hold
        simp only
        rw [if_neg hji]
        constructor
        · intro h2
          rcases hold.mp h2 with hm | hm
          · exact Or.inl hm
          · cases hm
        · rintro (hm | hm)
          · exact hold.mpr (Or.inl hm)
          · injection hm with hm'
            exact absurd hm'.symm hji
    · intro j hj
      simp only at hj
      injection hj with hj'
      subst hj'
      exact hi
    · intro hcc
      simp only at hcc
      rw [hc] at hcc
      exact Bool.noConfusion hcc
    · intro hwdt
      have hcb := hwd hwdt
      rw [hc] at hcb
      exact Bool.noConfusion hcb.1
  | process i hb =>
    refine ⟨?_, ?_, ?_, ?_, ?_, ?_, ?_, hrd⟩
    · rw [List.nodup_append]
      refine ⟨hnd, List.nodup_singleton i, ?_⟩
      intro a ha hai
      rw [List.mem_singleton] at hai
      subst hai
      exact hbp a hb ha
    · intro j hj
      cases hj
    · intro j hj
      have hold := hiff j hj
      rw [hb] at hold
      constructor
      · intro h2
        rcases hold.mp h2 with hm | hm
        · exact Or.inl (List.mem_append.mpr (Or.inl hm))
        · injection hm with hm'
          exact Or.inl (List.mem_append.mpr (Or.inr (by simp [hm'])))
      · rintro (hm | hm)
        · rcases List.mem_append.mp hm with h1 | h1
          · exact hold.mpr (Or.inl h1)
          · rw [List.mem_singleton] at h1
            subst h1
            exact hold.mpr (Or.inr rfl)
        · cases hm
    · intro j hj
      rcases List.mem_append.mp hj with h1 | h1
      · exact hpb j h1
      · rw [List.mem_singleton] at h1
        subst h1
        exact hbb j hb
    · intro j hj
      cases hj
    · intro hcc
      exact hcl hcc
    · intro hwdt
      have hcb := hwd hwdt
      rw [hb] at hcb
      exact Option.noConfusion hcb.2
  | close hall hc =>
    refine ⟨hnd, hbp, hiff, hpb, hbb, ?_, ?_, hrd⟩
    · intro _
      exact hall
    · intro hwdt
      exact ⟨rfl, (hwd hwdt).2⟩
  | workerExit hc hb =>
    refine ⟨hnd, hbp, hiff, hpb, hbb, hcl, ?_, ?_⟩
    · intro _
      exact ⟨hc, hb⟩
    · intro _
      rfl
  | shutdownRet hw =>
    refine ⟨hnd, hbp, hiff, hpb, hbb, hcl, hwd, ?_⟩
    intro _
    exact hw

theorem steps_inv {s : Sys} {tr : List Ev} {t : Sys} (h : Steps s tr t)
    (hs : SysInv s) : SysInv t := by
  induction h with
  | nil s => exact hs
  | cons s m t e tr hst hsteps ih => exact ih (step_inv hst hs)

theorem step_phase_ge {s : Sys} {e : Ev} {t : Sys} (h : Step s e t) (i : Nat)
    (hge : 1 ≤ t.phases i) : 1 ≤ s.phases i ∨ e = Ev.print i := by
  cases h with
  | print j hj h0 =>
    by_cases hij : i = j
    · exact Or.inr (by rw [hij])
    · left
      simpa [hij] using hge
  | accept j hj h1 hb hc =>
    left
    by_cases hij : i = j
    · subst hij
      omega
    · simpa [hij] using hge
  | process j hb => exact Or.inl hge
  | close hall hc => exact Or.inl hge
  | workerExit hc hb => exact Or.inl hge
  | shutdownRet hw => exact Or.inl hge

theorem step_phase_two {s : Sys} {e : Ev} {t : Sys} (h : Step s e t) (i : Nat)
    (h2 : t.phases i = 2) : s.phases i = 2 ∨ e = Ev.accept i := by
  cases h with
  | print j hj h0 =>
    left
    by_cases hij : i = j
    · subst hij
      simp at h2
    · simpa [hij] using h2
  | accept j hj h1 hb hc =>
    by_cases hij : i = j
    · exact Or.inr (by rw [hij])
    · left
      simpa [hij] using h2
  | process j hb => exact Or.inl h2
  | close hall hc => exact Or.inl h2
  | workerExit hc hb => exact Or.inl h2
  | shutdownRet hw => exact Or.inl h2

theorem steps_accept_print {s : Sys} {tr : List Ev} {t : Sys} (h : Steps s tr t)
    (i : Nat) :
    ∀ t1 t2, tr = t1 ++ Ev.accept i :: t2 → Ev.print i ∈ t1 ∨ 1 ≤ s.phases i := by
  induction h with
  | nil s =>
    intro t1 t2 hsplit
    exact absurd hsplit (by simp)
  | cons s m t e tr hst hsteps ih =>
    intro t1 t2 hsplit
    cases t1 with
    | nil =>
      simp only [List.nil_append] at hsplit
      injection hsplit with he htr
      subst he
      cases hst with
      | accept hj h1 hb hc =>
        right
        omega
    | cons a t1' =>
      simp only [List.cons_append] at hsplit
      injection hsplit with he htr
      subst he
      rcases ih t1' t2 htr with hm | hm
      · exact Or.inl (List.mem_cons_of_mem _ hm)
      · rcases step_phase_ge hst i hm with hh | hh
        · exact Or.inr hh
        · left
          rw [hh]
          exact List.mem_cons_self _ _

theorem steps_phase2_accept {s : Sys} {tr : List Ev} {t : Sys} (h : Steps s tr t)
    (i : Nat) : t.phases i = 2 → s.phases i = 2 ∨ Ev.accept i ∈ tr := by
  induction h with
  | nil s =>
    intro h2
    exact Or.inl h2
  | cons s m t e tr hst hsteps ih =>
    intro h2
    rcases ih h2 with hm | hm
    · rcases step_phase_two hst i hm with hh | hh
      · exact Or.inl hh
      · right
        rw [hh]
        exact List.mem_cons_self _ _
    · right
      exact List.mem_cons_of_mem _ hm

theorem drainSteps : Steps (initSys 1) drainTrace drainFinal := by
  refine Steps.cons _ _ _ _ _ (Step.print _ 0 (by decide) rfl) ?_
  refine Steps.cons _ _ _ _ _ (Step.accept _ 0 (by decide) rfl rfl rfl) ?_
  refine Steps.cons _ _ _ _ _ (Step.process _ 0 rfl) ?_
  refine Steps.cons _ _ _ _ _ (Step.close _ ?_ rfl) ?_
  · intro j hj
    have hj0 : j = 0 := Nat.lt_one_iff.mp hj
    subst hj0
    rfl
  refine Steps.cons _ _ _ _ _ (Step.workerExit _ rfl rfl) ?_
  refine Steps.cons _ _ _ _ _ (Step.shutdownRet _ rfl) ?_
  exact Steps.nil _

theorem pushLog_enabled_fst (c : LokiClient) (net : Network)
    (labels : List (String × String)) (entry : LogEntry)
    (hen : c.Enabled = true) (hurl : c.PushURL ≠ "") :
    (pushLog (some c) net labels entry).1 = some (mkLokiRequest c labels entry) := by
  simp only [pushLog]
  rw [if_neg (by simp [hen, hurl])]
  cases net (mkLokiRequest c labels entry) with
  | error e => rfl
  | ok st =>
    dsimp only
    split <;> rfl

theorem processOne_fst (c : LokiClient) (net : Network) (marshal : Marshal)
    (lg : LoggingFormat) :
    (processOne (some c) net marshal lg).1 =
      (pushLog (some c) net (workerLabels c lg) (workerEntry marshal lg)).1 := by
  simp only [processOne]
  cases hp : pushLog (some c) net (workerLabels c lg) (workerEntry marshal lg) with
  | mk req res =>
    cases res <;> rfl

theorem processLoop_map_fst (client : Option LokiClient) (net : Network)
    (marshal : Marshal) (logs : List LoggingFormat) :
    (processLoop client net marshal logs).map Prod.fst = logs := by
  induction logs with
  | nil => rfl
  | cons a as ih => simp [processLoop, ih]

/-- C1: for every sink configuration and input, `PushLog` returns
success without issuing any network call when the sink is disabled or
the push URL is empty; otherwise it issues the built request and
returns success exactly when the transport answers 200 or 204,
returning a context-wrapped error for a transport failure and for any
other status. -/
theorem pushLog_success_iff (c : Option LokiClient) (net : Network)
    (labels : List (String × String)) (entry : LogEntry) :
    (sinkDisabled c → pushLog c net labels entry = (none, Except.ok ()))
  ∧ (∀ cc, c = some cc → cc.Enabled = true → cc.PushURL ≠ "" →
      (pushLog c net labels entry).1 = some (mkLokiRequest cc labels entry)
    ∧ ((pushLog c net labels entry).2 = Except.ok () ↔
        (net (mkLokiRequest cc labels entry) = Except.ok 200 ∨
         net (mkLokiRequest cc labels entry) = Except.ok 204))
    ∧ (∀ e, net (mkLokiRequest cc labels entry) = Except.error e →
        (pushLog c net labels entry).2 =
          Except.error ("failed to send request to Loki: " ++ e))
    ∧ (∀ st, net (mkLokiRequest cc labels entry) = Except.ok st →
        st ≠ 200 → st ≠ 204 →
        (pushLog c net labels entry).2 =
          Except.error ("unexpected response from Loki: " ++ toString st))) := by
  constructor
  · intro hdis
    rcases hdis with h | ⟨cc, hc, hdis⟩
    · subst h
      rfl
    · subst hc
      simp only [pushLog]
      rw [if_pos hdis]
  · intro cc hc hen hurl
    subst hc
    refine ⟨pushLog_enabled_fst cc net labels entry hen hurl, ?_, ?_, ?_⟩
    · simp only [pushLog]
      rw [if_neg (by simp [hen, hurl])]
      cases hnet : net (mkLokiRequest cc labels entry) with
      | error e => simp
      | ok st =>
        dsimp only
        by_cases h200 : st = 200
        · subst h200
          simp
        · by_cases h204 : st = 204
          · subst h204
            simp
          · rw [if_pos ⟨h204, h200⟩]
            simp [h200, h204]
    · intro e hnet
      simp only [pushLog]
      rw [if_neg (by simp [hen, hurl]), hnet]
    · intro st hnet h200 h204
      simp only [pushLog]
      rw [if_neg (by simp [hen, hurl]), hnet]
      dsimp only
      rw [if_pos ⟨h204, h200⟩]

/-- Evaluation of `pushLog_success_iff` at concrete inputs: an enabled
client with a 200-transport succeeds, a disabled client is a no-op
with no request, and a transport failure surfaces as a wrapped
error. -/
theorem pushLog_success_iff_witness :
    (pushLog (some cliOn) netOk [] entry0).2 = Except.ok ()
  ∧ pushLog (some cliOff) netOk [] entry0 = (none, Except.ok ())
  ∧ (pushLog (some cliOn) netDown [] entry0).2 =
      Except.error ("failed to send request to Loki: " ++ "connection refused") := by
  have h1 := (pushLog_success_iff (some cliOn) netOk [] entry0).2 cliOn rfl rfl (by decide)
  have h2 := (pushLog_success_iff (some cliOff) netOk [] entry0).1
    (Or.inr ⟨cliOff, rfl, Or.inl rfl⟩)
  have h3 := (pushLog_success_iff (some cliOn) netDown [] entry0).2 cliOn rfl rfl (by decide)
  exact ⟨h1.2.1.mpr (Or.inl rfl), h2, h3.2.2.1 "connection refused" rfl⟩

/-- C2: when the sink is enabled with a non-empty URL, the request the
worker pushes for a record carries exactly one stream — labelled
job ↦ configured job label and type ↦ record classification — with
exactly one value pair: the decimal nanosecond timestamp and the
serialized record line. -/
theorem worker_payload_single_stream (c : LokiClient) (net : Network)
    (marshal : Marshal) (lg : LoggingFormat)
    (hen : c.Enabled = true) (hurl : c.PushURL ≠ "") :
    (processOne (some c) net marshal lg).1 =
      some (mkLokiRequest c (workerLabels c lg) (workerEntry marshal lg))
  ∧ (mkLokiRequest c (workerLabels c lg) (workerEntry marshal lg)).payload.streams =
      [{ stream := [("job", c.Job), ("type", lg.logtype)]
         values := [(toString lg.Timestamp.unixNano, lfString marshal lg)] }]
  ∧ (mkLokiRequest c (workerLabels c lg) (workerEntry marshal lg)).payload.streams.length = 1
  ∧ (∀ str, str ∈ (mkLokiRequest c (workerLabels c lg) (workerEntry marshal lg)).payload.streams →
      str.values.length = 1) := by
  refine ⟨?_, rfl, rfl, ?_⟩
  · rw [processOne_fst]
    exact pushLog_enabled_fst c net _ _ hen hurl
  · intro str hstr
    dsimp only [mkLokiRequest] at hstr
    rw [List.mem_singleton] at hstr
    subst hstr
    rfl

/-- Evaluation of `worker_payload_single_stream` on a concrete enabled
client and record. -/
theorem worker_payload_single_stream_witness :
    (processOne (some cliOn) netOk marshalOk lg0).1 =
      some (mkLokiRequest cliOn (workerLabels cliOn lg0) (workerEntry marshalOk lg0))
  ∧ (mkLokiRequest cliOn (workerLabels cliOn lg0) (workerEntry marshalOk lg0)).payload.streams.length = 1 := by
  have h := worker_payload_single_stream cliOn netOk marshalOk lg0 rfl (by decide)
  exact ⟨h.1, h.2.2.1⟩

/-- C5: when the push of a record fails, the worker emits the local
failure log exactly when the sink is enabled, handles the record
exactly once (no re-queue, no retry), and the loop goes on to process
every subsequent record. -/
theorem worker_push_failure_resilient (c : LokiClient) (net : Network)
    (marshal : Marshal) (lg : LoggingFormat) (rest : List LoggingFormat) (e : String)
    (herr : (pushLog (some c) net (workerLabels c lg) (workerEntry marshal lg)).2 =
      Except.error e) :
    (processOne (some c) net marshal lg).2 =
      (if c.Enabled then [("Failed to send log to Loki", e)] else [])
  ∧ processLoop (some c) net marshal (lg :: rest) =
      (lg, processOne (some c) net marshal lg) :: processLoop (some c) net marshal rest
  ∧ (processLoop (some c) net marshal (lg :: rest)).map Prod.fst = lg :: rest := by
  refine ⟨?_, rfl, processLoop_map_fst (some c) net marshal (lg :: rest)⟩
  simp only [processOne]
  cases hp : pushLog (some c) net (workerLabels c lg) (workerEntry marshal lg) with
  | mk req res =>
    rw [hp] at herr
    cases res with
    | error e2 =>
      injection herr with he
      subst he
      rfl
    | ok u => exact Except.noConfusion herr

/-- Evaluation of `worker_push_failure_resilient` on a concrete enabled
client whose transport is down. -/
theorem worker_push_failure_resilient_witness :
    (processOne (some cliOn) netDown marshalOk lg0).2 =
      [("Failed to send log to Loki", "failed to send request to Loki: connection refused")]
  ∧ (processLoop (some cliOn) netDown marshalOk [lg0]).map Prod.fst = [lg0] := by
  have h := worker_push_failure_resilient cliOn netDown marshalOk lg0 []
      "failed to send request to Loki: connection refused" rfl
  exact ⟨h.1, h.2.2⟩

/-- C6: a record built by `BuildLog` carries exactly the given severity
level, the upper-cased classification, the given timestamp, and
exactly the given additional-fields map. -/
theorem buildLog_fields (m : TemplateMap) (sprintf : Sprintf)
    (logType templateName : String) (level : Nat)
    (fields : List (String × GoValue)) (args : List GoValue) (now : GoTime) :
    (BuildLog m sprintf logType templateName level fields args now).Level = level
  ∧ (BuildLog m sprintf logType templateName level fields args now).logtype = goToUpper logType
  ∧ (BuildLog m sprintf logType templateName level fields args now).Timestamp = now
  ∧ (BuildLog m sprintf logType templateName level fields args now).AdditionalData = fields :=
  ⟨rfl, rfl, rfl, rfl⟩

/-- C7: when no template is registered under the upper-cased name,
`formatTemplate` applies the positional formatter to the literal name
itself with the given arguments, for every formatter. -/
theorem formatTemplate_fallback (m : TemplateMap) (sprintf : Sprintf)
    (templateName : String) (args : List GoValue)
    (habs : m (goToUpper templateName) = none) :
    formatTemplate m sprintf templateName args = sprintf templateName args := by
  simp only [formatTemplate, habs]

/-- Evaluation of `formatTemplate_fallback`: with no template named
X_UNKNOWN and two arguments, resolution formats the literal name. -/
theorem formatTemplate_fallback_witness :
    formatTemplate emptyTemplates sprintfArity "X_UNKNOWN" [GoValue.int 1, GoValue.int 2] =
      sprintfArity "X_UNKNOWN" [GoValue.int 1, GoValue.int 2] :=
  formatTemplate_fallback emptyTemplates sprintfArity "X_UNKNOWN"
    [GoValue.int 1, GoValue.int 2] rfl

/-- C8: `AddTemplate` stores under the upper-cased name, so a later
lookup with any casing of that name resolves to the stored format,
and a second `AddTemplate` whose name upper-cases to the same key
silently overwrites: the lookup then resolves to the most recently
stored format. -/
theorem addTemplate_upper_overwrite (m : TemplateMap) (sprintf : Sprintf)
    (name1 name2 casing fmt1 fmt2 : String) (args : List GoValue)
    (h12 : goToUpper name2 = goToUpper name1)
    (hcase : goToUpper casing = goToUpper name1) :
    formatTemplate (AddTemplate m name1 fmt1) sprintf casing args = sprintf fmt1 args
  ∧ formatTemplate (AddTemplate (AddTemplate m name1 fmt1) name2 fmt2) sprintf casing args =
      sprintf fmt2 args := by
  constructor
  · simp only [formatTemplate, AddTemplate]
    rw [if_pos hcase]
  · simp only [formatTemplate, AddTemplate]
    rw [if_pos (by rw [hcase, h12])]

/-- Evaluation of `addTemplate_upper_overwrite`: storing under "foo"
resolves from "FOO", and re-storing under "Foo" overwrites. -/
theorem addTemplate_upper_overwrite_witness :
    formatTemplate (AddTemplate emptyTemplates "foo" "v1") sprintfArity "FOO" [] =
      sprintfArity "v1" []
  ∧ formatTemplate (AddTemplate (AddTemplate emptyTemplates "foo" "v1") "Foo" "v2")
      sprintfArity "FOO" [] = sprintfArity "v2" [] :=
  addTemplate_upper_overwrite emptyTemplates sprintfArity "foo" "Foo" "FOO" "v1" "v2" []
    (by decide) (by decide)

/-- C9: when serialization of a record fails, `String` returns the
human-readable placeholder in place of the serialized line instead of
propagating a failure, and the worker pushes that placeholder as the
wire line. -/
theorem serialize_error_placeholder (marshal : Marshal) (lf : LoggingFormat)
    (e : String) (hm : marshal lf = Except.error e) (c : LokiClient) (net : Network)
    (hen : c.Enabled = true) (hurl : c.PushURL ≠ "") :
    lfString marshal lf = "Error serializing log: " ++ e
  ∧ (workerEntry marshal lf).Line = "Error serializing log: " ++ e
  ∧ (processOne (some c) net marshal lf).1 =
      some (mkLokiRequest c (workerLabels c lf)
        { Timestamp := lf.Timestamp, Line := "Error serializing log: " ++ e }) := by
  have h1 : lfString marshal lf = "Error serializing log: " ++ e := by
    simp only [lfString, hm]
  have hentry : workerEntry marshal lf =
      { Timestamp := lf.Timestamp, Line := "Error serializing log: " ++ e } := by
    simp only [workerEntry, h1]
  refine ⟨h1, ?_, ?_⟩
  · rw [workerEntry, h1]
  · rw [processOne_fst, hentry]
    exact pushLog_enabled_fst c net _ _ hen hurl

/-- Evaluation of `serialize_error_placeholder` on a concrete failing
serializer. -/
theorem serialize_error_placeholder_witness :
    lfString marshalFail lg0 = "Error serializing log: " ++ "unsupported type"
  ∧ (processOne (some cliOn) netOk marshalFail lg0).1 =
      some (mkLokiRequest cliOn (workerLabels cliOn lg0)
        { Timestamp := lg0.Timestamp, Line := "Error serializing log: " ++ "unsupported type" }) := by
  have h := serialize_error_placeholder marshalFail lg0 "unsupported type" rfl cliOn netOk
      rfl (by decide)
  exact ⟨h.1, h.2.2⟩

/-- C10: `PushLog` on a nil receiver is safe for every input: it
returns success with no network call. -/
theorem pushLog_nil_receiver (net : Network) (labels : List (String × String))
    (entry : LogEntry) : pushLog none net labels entry = (none, Except.ok ()) := rfl

/-- C3: in every execution of the dispatcher model in which shutdown
has returned — the model's close transition fires only after all `k`
producers' enqueues completed and no later enqueue exists, per the
claim's hypothesis — the worker has processed each of the `k`
accepted records exactly once before the return: none lost, none
duplicated. -/
theorem closeLogManager_drains (k : Nat) (tr : List Ev) (s : Sys)
    (h : Steps (initSys k) tr s) (hret : s.retd = true) :
    s.procd.Nodup ∧ ∀ i, i ∈ s.procd ↔ i < k := by
  have hinv := steps_inv h (initSys_inv k)
  have hn : s.nprod = k := by rw [steps_nprod h]; rfl
  obtain ⟨hnd, hbp, hiff, hpb, hbb, hcl, hwd, hrd⟩ := hinv
  obtain ⟨hc, hb⟩ := hwd (hrd hret)
  refine ⟨hnd, ?_⟩
  intro i
  constructor
  · intro hm
    have := hpb i hm
    omega
  · intro hik
    have hik2 : i < s.nprod := by omega
    have h2 := hcl hc i hik2
    rcases (hiff i hik2).mp h2 with hm | hm
    · exact hm
    · rw [hb] at hm
      exact Option.noConfusion hm

/-- Evaluation of `closeLogManager_drains` on a complete concrete
execution with one producer. -/
theorem closeLogManager_drains_witness :
    drainFinal.procd.Nodup ∧ (0 ∈ drainFinal.procd) ∧ drainFinal.retd = true := by
  have h := closeLogManager_drains 1 drainTrace drainFinal drainSteps rfl
  exact ⟨h.1, (h.2 0).mpr Nat.zero_lt_one, rfl⟩

/-- C4: along every execution of the dispatcher model, the worker
accepts a producer's record only strictly after that producer's local
console emission, and a producer's `SendLog` call has returned only
if the worker has accepted its record. -/
theorem sendLog_print_before_accept (k : Nat) (tr : List Ev) (s : Sys) (i : Nat)
    (h : Steps (initSys k) tr s) :
    (∀ t1 t2, tr = t1 ++ Ev.accept i :: t2 → Ev.print i ∈ t1)
  ∧ (s.phases i = 2 → Ev.accept i ∈ tr) := by
  constructor
  · intro t1 t2 hsplit
    rcases steps_accept_print h i t1 t2 hsplit with hm | hm
    · exact hm
    · exact absurd hm (by simp [initSys])
  · intro h2
    rcases steps_phase2_accept h i h2 with hm | hm
    · exact absurd hm (by simp [initSys])
    · exact hm

/-- Evaluation of `sendLog_print_before_accept` on the concrete
one-producer execution: the print precedes the hand-off, and the
returned producer's record was accepted. -/
theorem sendLog_print_before_accept_witness :
    Ev.print 0 ∈ [Ev.print 0] ∧ Ev.accept 0 ∈ drainTrace := by
  have h := sendLog_print_before_accept 1 drainTrace drainFinal 0 drainSteps
  exact ⟨h.1 [Ev.print 0] [Ev.process 0, Ev.chanClosed, Ev.workerExit, Ev.shutdownRet] rfl,
    h.2 rfl⟩

end YealinkLog
